import Mathlib

/-!
Verification of the steady-state kinetics solver of PytLab/Kynetix
(file `pynetics/solvers/solver_base.py`).

The development shallowly embeds the parts of `SolverBase` and `NewtonRoot`
that the checked claims are about:

* the energetics layer (`get_reaction_energies`, `get_rate_constants`,
  `boltzmann_coverages`, the transition-state tie-break of
  `get_single_delta_G_symbols`, the energy-dict mutation of `get_tof`)
  over real numbers, with the Python energy dict `self.E` modelled as a
  partial map `String → Option ℝ` and a lookup failure surfaced as an
  explicit `PyErr.keyError` (the Python `KeyError`);
* the Newton iteration (`NewtonRoot.__iter__`) and the classified
  finite-difference Jacobian (`classified_numerical_jacobian`) over ℚ,
  with the external collaborators of the solver (the residual function,
  the Jacobian routine, the linear solver, the golden-section line
  search, the norm, the feasibility constraint) as explicit parameters,
  exactly as they are parameters of the Python class.
-/

namespace Pynetics

/-- Errors observable from the embedded code.  `keyError k` is the Python
`KeyError` raised by a failed dict lookup `self.E[k]`.  The constructor
`missingEnergyError` exists only as the vocabulary needed to state the
spec sentence that names a `MissingEnergyError`; the translated code
never produces it (no such class exists in the source). -/
inductive PyErr where
  | keyError (key : String)
  | missingEnergyError (key : String)
  deriving DecidableEq

/-- The free-energy dict `self.E` of the solver: species name to energy. -/
abbrev EnergyDict := String → Option ℝ

/-- One species term of a reaction state, already split by
`split_species` into (stoichiometry, species name), e.g. `3H2_g`
becomes `(3, "H2_g")`. -/
abbrev SpeciesTerm := ℕ × String

/-- One state (initial / transition / final) of an elementary reaction:
a list of species terms. -/
abbrev RxnState := List SpeciesTerm

/-- An elementary reaction: the ordered list of its 2 or 3 states. -/
abbrev Rxn := List RxnState

/-- Lookup `E[k]` of the Python energy dict: a missing key raises
`KeyError(k)`. -/
def dictGet (E : EnergyDict) (k : String) : Except PyErr ℝ :=
  match E k with
  | some v => .ok v
  | none => .error (.keyError k)

/-- The accumulation loop `G = 0.0; for sp in state: G += stoich * E[name]`
used for each state inside `SolverBase.get_reaction_energies`; the first
missing species aborts the loop with its `KeyError`. -/
def stateEnergyAux (E : EnergyDict) (acc : ℝ) : RxnState → Except PyErr ℝ
  | [] => .ok acc
  | t :: rest => do
    let e ← dictGet E t.2
    stateEnergyAux E (acc + (t.1 : ℝ) * e) rest

/-- Stoichiometry-weighted free-energy sum of one reaction state. -/
def stateEnergy (E : EnergyDict) (st : RxnState) : Except PyErr ℝ :=
  stateEnergyAux E 0 st

/-- `SolverBase.get_reaction_energies`: returns the pair
(forward barrier, reverse barrier) = (G_TS - G_IS, G_TS - G_FS).
G_IS comes from the first state, G_FS from the last; for a 2-state
reaction G_TS = max(G_IS, G_FS), for a 3-state reaction G_TS is the
energy sum of the middle state, and any other length leaves the
`G_TS = 0.0` initialisation (as in the source).  The source indexes
`elementary_rxn_list[0]` and `[-1]`; the `headD`/`getLastD` defaults are
only reached for the empty reaction, which the source never handles. -/
def get_reaction_energies (E : EnergyDict) (rxn : Rxn) : Except PyErr (ℝ × ℝ) := do
  let gIS ← stateEnergy E (rxn.headD [])
  let gFS ← stateEnergy E (rxn.getLastD [])
  let gTS ← if rxn.length = 2 then pure (max gIS gFS)
    else if rxn.length = 3 then stateEnergy E (rxn.getD 1 [])
    else pure 0
  pure (gTS - gIS, gTS - gFS)

/-- The body of the loop of `SolverBase.get_rate_constants` for one
elementary reaction: `kf = (kB*T/h)*exp(-delta_Gf/(kB*T))` and
`kr = (kB*T/h)*exp(-delta_Gr/(kB*T))`. -/
noncomputable def reaction_rate_constants (kB h T : ℝ) (E : EnergyDict)
    (rxn : Rxn) : Except PyErr (ℝ × ℝ) := do
  let (dGf, dGr) ← get_reaction_energies E rxn
  pure (kB * T / h * Real.exp (-dGf / (kB * T)),
        kB * T / h * Real.exp (-dGr / (kB * T)))

/-- `SolverBase.get_rate_constants`: the loop over `rxns_list` collecting
the forward and reverse rate constants in reaction order. -/
noncomputable def get_rate_constants (kB h T : ℝ) (E : EnergyDict) :
    List Rxn → Except PyErr (List ℝ × List ℝ)
  | [] => .ok ([], [])
  | rxn :: rest => do
    let (kf, kr) ← reaction_rate_constants kB h T E rxn
    let (kfs, krs) ← get_rate_constants kB h T E rest
    pure (kf :: kfs, kr :: krs)

/-- The transition-state index chosen by
`SolverBase.get_single_delta_G_symbols` for a 2-state reaction:
`TS_idx = -1 if IS_energy <= FS_energy else 0`
(index -1 is the last state, index 0 the first). -/
noncomputable def TS_idx (isE fsE : ℝ) : ℤ :=
  if isE ≤ fsE then -1 else 0

/-- The state selected as transition state by that index:
the last state when `IS_energy <= FS_energy`, otherwise the first. -/
noncomputable def TS_state (rxn : Rxn) (isE fsE : ℝ) : RxnState :=
  if isE ≤ fsE then rxn.getLastD [] else rxn.headD []

/-- The energy lookups `[self.E[a] for a in adsorbate_names]` shared by
both loops of `SolverBase.boltzmann_coverages`. -/
def lookupAll (E : EnergyDict) : List String → Except PyErr (List ℝ)
  | [] => .ok []
  | a :: rest => do
    let e ← dictGet E a
    let es ← lookupAll E rest
    pure (e :: es)

/-- `SolverBase.boltzmann_coverages`:
`boltz_sum = sum(exp(-E[a]/(kB*T)) for a in adsorbate_names)` and then
one coverage `exp(-E[a]/(kB*T))/boltz_sum` per adsorbate, in
`adsorbate_names` order.  Only the product `kB*T` enters the formula. -/
noncomputable def boltzmann_coverages (kB T : ℝ) (E : EnergyDict)
    (adsorbateNames : List String) : Except PyErr (List ℝ) := do
  let es ← lookupAll E adsorbateNames
  let boltzSum := (es.map (fun e => Real.exp (-e / (kB * T)))).sum
  pure (es.map (fun e => Real.exp (-e / (kB * T)) / boltzSum))

/-! ### The energy-dict mutation performed by `SolverBase.get_tof` -/

/-- Python dict assignment `self.E[k] = v`, as a pointwise update of the
partial map. -/
def dictSet (E : EnergyDict) (k : String) (v : ℝ) : EnergyDict :=
  fun q => if q = k then some v else E q

/-- The sequence of assignments performed by one call, folded left in
iteration order (later assignments win, as for a Python dict). -/
def applyUpdates (E : EnergyDict) (ps : List (String × ℝ)) : EnergyDict :=
  ps.foldl (fun e kv => dictSet e kv.1 kv.2) E

/-- The overwrite loop of `SolverBase.get_tof`:
`Gs_order = adsorbate_names + transition_state_names;`
`for intermediate, G in zip(Gs_order, Gs): self.E[intermediate] = G`. -/
def get_tof_update_E (adsorbateNames transitionStateNames : List String)
    (Gs : List ℝ) (E : EnergyDict) : EnergyDict :=
  applyUpdates E ((adsorbateNames ++ transitionStateNames).zip Gs)

/-- Modelled from the spec: `get_steady_state_cvgs` is defined in a
subclass of `SolverBase` that is not present under `src/`.  Per spec
section 4.3 the constrained Newton root finder is `solve(F, J, x0,
constraint)`: it operates on coverage vectors only and neither reads
back nor writes the free-energy mapping, so its effect on `self.E` is
the identity.  The remaining calls of `get_tof`
(`get_rate_constants`, `get_rates`, `get_net_rates`, the TOF
projection) are in the source and only read `self.E`. -/
def steady_state_E_effect (E : EnergyDict) : EnergyDict := E

/-- The complete effect of one `get_tof(Gs)` call on the shared energy
dict `self.E`: the overwrite loop, followed by the energy-preserving
remainder of the call. -/
def get_tof_E_effect (adsorbateNames transitionStateNames : List String)
    (Gs : List ℝ) (E : EnergyDict) : EnergyDict :=
  steady_state_E_effect (get_tof_update_E adsorbateNames transitionStateNames Gs E)

/-! ### The Newton root finder `NewtonRoot` -/

/-- Elementwise vector sum (`self._matrix(x0) + l*s`). -/
def vadd (a b : List ℚ) : List ℚ := List.zipWith (· + ·) a b

/-- Scalar multiple `l*s`. -/
def vsmul (l : ℚ) (v : List ℚ) : List ℚ := v.map (fun a => l * a)

/-- Vector negation `-fx`. -/
def vneg (v : List ℚ) : List ℚ := v.map (fun a => -a)

/-- The collaborators handed to `NewtonRoot.__init__`: the residual
function `f`, the Jacobian routine `J` (with the
`dtheta_dt_expressions` context already applied), the linear solver
`self._Axb_solver` (returning `none` when the solve raises
`ZeroDivisionError`), the golden-section line search `golden` of scipy,
the norm `self._norm`, and the feasibility `constraint`. -/
structure NewtonRoot where
  f : List ℚ → List ℚ
  J : List ℚ → List (List ℚ)
  axbSolver : List (List ℚ) → List ℚ → Option (List ℚ)
  golden : (ℚ → ℚ) → ℚ
  norm : List ℚ → ℚ
  realConstraint : List ℚ → List ℚ

/-- `quasi_constraint(x) = x`, the identity constraint of the warm-up
phase. -/
def quasi_constraint (x : List ℚ) : List ℚ := x

/-- The constraint selected at the top of iteration `iter_counter`:
`if iter_counter <= 5: quasi_constraint else: real_constraint`. -/
def constraintAt (nr : NewtonRoot) (iterCounter : ℕ) : List ℚ → List ℚ :=
  if iterCounter ≤ 5 then quasi_constraint else nr.realConstraint

/-- One pass of the `while not cancel` loop body of
`NewtonRoot.__iter__` at iteration count `iterCounter` from point `x0`:
solve `J(x0) s = -f(x0)` (`none` models the caught
`ZeroDivisionError`), pick the step length by the golden-section search
on `l ↦ norm(f(x0 + l*s))`, constrain the stepped point, and return the
yielded triple together with the `x1 == x0` stationarity flag. -/
def newtonStep (nr : NewtonRoot) (iterCounter : ℕ) (x0 : List ℚ) :
    Option (List ℚ × ℚ × List ℚ × Bool) :=
  let fx := nr.f x0
  let fxn := vneg fx
  let Jx := nr.J x0
  match nr.axbSolver Jx fxn with
  | none => none
  | some s =>
    let fl := fun l => nr.norm (nr.f (vadd x0 (vsmul l s)))
    let l := nr.golden fl
    let x1 := constraintAt nr iterCounter (vadd x0 (vsmul l s))
    some (x1, nr.norm (nr.f x1), nr.f x1, decide (x1 = x0))

/-- The control state of the generator between yields: still running at
a point, cancelled after detecting a stationary point, or cancelled by
the `ZeroDivisionError` handler (which prints and breaks). -/
inductive NewtonState where
  | running (x : List ℚ)
  | stationary (x : List ℚ)
  | aborted
  deriving DecidableEq

/-- The generator state after `n` completed loop iterations, started
from `x0 = quasi_constraint(self.x0)`.  Iteration `n+1` runs
`newtonStep` with `iter_counter = n+1`; the stationarity test
`if x1 == x0` is the only way the loop sets `cancel` besides the
singular-solve handler. -/
def newtonStateAt (nr : NewtonRoot) (x0 : List ℚ) : ℕ → NewtonState
  | 0 => .running (quasi_constraint x0)
  | n + 1 =>
    match newtonStateAt nr x0 n with
    | .running x =>
      match newtonStep nr (n + 1) x with
      | none => .aborted
      | some (x1, _, _, _) => if x1 = x then .stationary x1 else .running x1
    | s => s

/-- The `n`-th yielded triple `(point, residual_norm, residual_vector)`
(0-based), produced during loop iteration `n+1`; `none` once the
generator has stopped. -/
def newtonYield (nr : NewtonRoot) (x0 : List ℚ) (n : ℕ) :
    Option (List ℚ × ℚ × List ℚ) :=
  match newtonStateAt nr x0 n with
  | .running x => (newtonStep nr (n + 1) x).map (fun r => (r.1, r.2.1, r.2.2.1))
  | _ => none

/-- How a finished generator run presents its end to the caller. -/
inductive GenExit where
  | stopIteration
  | raised (errName : String)
  deriving DecidableEq

/-- The exit observed by the caller once the generator has stopped after
`n` iterations (`none` while it is still running).  Both stopping paths
of the source end the generator normally: the stationary-point branch
sets `cancel` after yielding, and the `except ZeroDivisionError`
handler prints a message, sets `cancel` and breaks — neither raises. -/
def newtonExitAt (nr : NewtonRoot) (x0 : List ℚ) (n : ℕ) : Option GenExit :=
  match newtonStateAt nr x0 n with
  | .running _ => none
  | .stationary _ => some .stopIteration
  | .aborted => some .stopIteration

/-! ### `SolverBase.classified_numerical_jacobian` -/

/-- One column `j` of the classified Jacobian: the copy
`xj = x.copy()`, the step `delta = max(abs(h*xj[j]), h)`, and the
one-sided difference quotient — forward (`xj[j] += delta`, divide by
`delta`) when `j <= inter_num - 1` over the integers, backward
(`xj[j] -= delta`, divide by `-delta`) otherwise. -/
def jacColumn (f : List ℚ → List ℚ) (x fx : List ℚ) (interNum : ℕ)
    (h : ℚ) (j : ℕ) : List ℚ :=
  let xj := x.getD j 0
  let delta := max |h * xj| h
  if (j : ℤ) ≤ (interNum : ℤ) - 1 then
    List.zipWith (fun a b => (a - b) / delta) (f (x.set j (xj + delta))) fx
  else
    List.zipWith (fun a b => (a - b) / (-delta)) (f (x.set j (xj - delta))) fx

/-- `SolverBase.classified_numerical_jacobian` with
`inter_num = len(adsorbate_names)` passed explicitly; the matrix `J`
with `J[i, j] = Jj[i]` is represented as the list of its `n` columns. -/
def classified_numerical_jacobian (f : List ℚ → List ℚ) (x : List ℚ)
    (interNum : ℕ) (h : ℚ) : List (List ℚ) :=
  (List.range x.length).map (jacColumn f x (f x) interNum h)

/-! ### Basic computation lemmas for the `Except PyErr` monad -/

@[simp] theorem error_bind {α β : Type} (e : PyErr) (f : α → Except PyErr β) :
    (Except.error e : Except PyErr α) >>= f = .error e := rfl

@[simp] theorem ok_bind {α β : Type} (a : α) (f : α → Except PyErr β) :
    (Except.ok a : Except PyErr α) >>= f = f a := rfl

@[simp] theorem map_ok {α β : Type} (g : α → β) (a : α) :
    g <$> (Except.ok a : Except PyErr α) = .ok (g a) := rfl

@[simp] theorem map_error {α β : Type} (g : α → β) (e : PyErr) :
    g <$> (Except.error e : Except PyErr α) = .error e := rfl

@[simp] theorem pure_eq_ok {α : Type} (a : α) :
    (pure a : Except PyErr α) = .ok a := rfl

/-- Unfolding `get_rate_constants` on a successful run: the result lists
have one entry per reaction, and the entries at index `i` are exactly the
pair computed by the rate-constant loop body for reaction `i`. -/
theorem get_rate_constants_ok_spec (kB h T : ℝ) (E : EnergyDict)
    (rxns : List Rxn) (kfs krs : List ℝ)
    (hget : get_rate_constants kB h T E rxns = .ok (kfs, krs)) :
    kfs.length = rxns.length ∧ krs.length = rxns.length ∧
    ∀ i (hi : i < rxns.length) (hf : i < kfs.length) (hr : i < krs.length),
      reaction_rate_constants kB h T E (rxns.get ⟨i, hi⟩) =
        .ok (kfs.get ⟨i, hf⟩, krs.get ⟨i, hr⟩) := by
  induction rxns generalizing kfs krs with
  | nil =>
    simp only [get_rate_constants, Except.ok.injEq] at hget
    obtain ⟨h1, h2⟩ := Prod.mk.injEq .. ▸ hget
    subst h1; subst h2
    exact ⟨rfl, rfl, fun i hi => absurd hi (by simp)⟩
  | cons rxn rest ih =>
    unfold get_rate_constants at hget
    cases hp : reaction_rate_constants kB h T E rxn with
    | error e => rw [hp] at hget; simp at hget
    | ok p =>
      rw [hp] at hget
      obtain ⟨kf, kr⟩ := p
      cases hrest : get_rate_constants kB h T E rest with
      | error e => rw [hrest] at hget; simp at hget
      | ok q =>
        rw [hrest] at hget
        obtain ⟨kfs', krs'⟩ := q
        simp only [ok_bind, pure_eq_ok, Except.ok.injEq, Prod.mk.injEq] at hget
        obtain ⟨h1, h2⟩ := hget
        subst h1; subst h2
        obtain ⟨hl1, hl2, hspec⟩ := ih kfs' krs' hrest
        refine ⟨by simp [hl1], by simp [hl2], ?_⟩
        intro i hi hf hr
        cases i with
        | zero => exact hp
        | succ i' =>
          exact hspec i' (Nat.lt_of_succ_lt_succ hi)
            (Nat.lt_of_succ_lt_succ hf) (Nat.lt_of_succ_lt_succ hr)

/-- Claim C1: for every elementary reaction with an explicit transition
state, the barrier pair computed by `get_reaction_energies` is
`(G_TS - G_IS, G_TS - G_FS)`, the rate constants produced by
`get_rate_constants` are `(kB*T/h)*exp(-(G_TS - G_IS)/(kB*T))` and
`(kB*T/h)*exp(-(G_TS - G_FS)/(kB*T))` where `G_IS`, `G_TS`, `G_FS` are
the stoichiometry-weighted free-energy sums of the three states, and
`forward_barrier - reverse_barrier = G_FS - G_IS`. -/
theorem eyring_rate_constants (kB h T : ℝ) (E : EnergyDict)
    (rxns : List Rxn) (kfs krs : List ℝ) (i : ℕ) (hi : i < rxns.length)
    (IS TS FS : RxnState) (gIS gTS gFS : ℝ)
    (hget : get_rate_constants kB h T E rxns = .ok (kfs, krs))
    (hrxn : rxns.get ⟨i, hi⟩ = [IS, TS, FS])
    (hIS : stateEnergy E IS = .ok gIS)
    (hTS : stateEnergy E TS = .ok gTS)
    (hFS : stateEnergy E FS = .ok gFS) :
    get_reaction_energies E [IS, TS, FS] = .ok (gTS - gIS, gTS - gFS) ∧
    (∃ hf : i < kfs.length, kfs.get ⟨i, hf⟩ =
        kB * T / h * Real.exp (-(gTS - gIS) / (kB * T))) ∧
    (∃ hr : i < krs.length, krs.get ⟨i, hr⟩ =
        kB * T / h * Real.exp (-(gTS - gFS) / (kB * T))) ∧
    (gTS - gIS) - (gTS - gFS) = gFS - gIS := by
  have hre : get_reaction_energies E [IS, TS, FS] = .ok (gTS - gIS, gTS - gFS) := by
    simp [get_reaction_energies, hIS, hTS, hFS]
  have hpair : reaction_rate_constants kB h T E [IS, TS, FS] =
      .ok (kB * T / h * Real.exp (-(gTS - gIS) / (kB * T)),
           kB * T / h * Real.exp (-(gTS - gFS) / (kB * T))) := by
    simp [reaction_rate_constants, hre]
  obtain ⟨hl1, hl2, hspec⟩ := get_rate_constants_ok_spec kB h T E rxns kfs krs hget
  have hf : i < kfs.length := hl1 ▸ hi
  have hr : i < krs.length := hl2 ▸ hi
  have hat := hspec i hi hf hr
  rw [hrxn, hpair] at hat
  simp only [Except.ok.injEq, Prod.mk.injEq] at hat
  exact ⟨hre, ⟨hf, hat.1.symm⟩, ⟨hr, hat.2.symm⟩, by ring⟩

/-- Concrete three-state reaction used by the witnesses: an adsorbate at
energy 0, a transition state at energy 1 and a product at energy 0. -/
def wE : EnergyDict := fun k =>
  if k = "A_s" then some 0 else if k = "A-A_s" then some 1 else
  if k = "B_s" then some 0 else none

def wIS : RxnState := [(1, "A_s")]

def wTS : RxnState := [(1, "A-A_s")]

def wFS : RxnState := [(1, "B_s")]

def wRxn : Rxn := [wIS, wTS, wFS]

/-- Witness for claim C1 at the concrete reaction `wRxn` with
`kB = h = T = 1`. -/
theorem eyring_rate_constants_witness :
    (get_rate_constants 1 1 1 wE [wRxn] = .ok ([Real.exp (-1)], [Real.exp (-1)]) ∧
     (0 : ℕ) < [wRxn].length ∧
     stateEnergy wE wIS = .ok 0 ∧
     stateEnergy wE wTS = .ok 1 ∧
     stateEnergy wE wFS = .ok 0) ∧
    (get_reaction_energies wE [wIS, wTS, wFS] = .ok (1 - 0, 1 - 0) ∧
     (∃ hf : 0 < [Real.exp (-1)].length, [Real.exp (-1)].get ⟨0, hf⟩ =
         1 * 1 / 1 * Real.exp (-(1 - 0) / (1 * 1))) ∧
     (∃ hr : 0 < [Real.exp (-1)].length, [Real.exp (-1)].get ⟨0, hr⟩ =
         1 * 1 / 1 * Real.exp (-(1 - 0) / (1 * 1))) ∧
     ((1 : ℝ) - 0) - (1 - 0) = 0 - 0) := by
  have h1 : get_rate_constants 1 1 1 wE [wRxn] =
      .ok ([Real.exp (-1)], [Real.exp (-1)]) := by
    simp [get_rate_constants, reaction_rate_constants, get_reaction_energies,
      stateEnergy, stateEnergyAux, dictGet, wE, wRxn, wIS, wTS, wFS]
  have hIS : stateEnergy wE wIS = .ok 0 := by
    simp [stateEnergy, stateEnergyAux, dictGet, wE, wIS]
  have hTS : stateEnergy wE wTS = .ok 1 := by
    simp [stateEnergy, stateEnergyAux, dictGet, wE, wTS]
  have hFS : stateEnergy wE wFS = .ok 0 := by
    simp [stateEnergy, stateEnergyAux, dictGet, wE, wFS]
  exact ⟨⟨h1, by simp, hIS, hTS, hFS⟩,
    eyring_rate_constants 1 1 1 wE [wRxn] [Real.exp (-1)] [Real.exp (-1)]
      0 (by simp) wIS wTS wFS 0 1 0 h1 rfl hIS hTS hFS⟩

/-- Eliminate a successful bind: the first computation succeeded and the
continuation succeeded on its result. -/
theorem bind_ok_elim {α β : Type} (x : Except PyErr α) (f : α → Except PyErr β)
    (b : β) (h : x >>= f = .ok b) : ∃ a, x = .ok a ∧ f a = .ok b := by
  cases x with
  | error e => simp at h
  | ok a => exact ⟨a, rfl, by simpa using h⟩

/-- Whatever state supplies `G_TS`, the barrier pair returned by
`get_reaction_energies` always satisfies
`forward_barrier - reverse_barrier = G_FS - G_IS`. -/
theorem get_reaction_energies_barrier_diff (E : EnergyDict) (rxn : Rxn)
    (gIS gFS fb rb : ℝ)
    (hIS : stateEnergy E (rxn.headD []) = .ok gIS)
    (hFS : stateEnergy E (rxn.getLastD []) = .ok gFS)
    (h : get_reaction_energies E rxn = .ok (fb, rb)) :
    fb - rb = gFS - gIS := by
  unfold get_reaction_energies at h
  obtain ⟨a1, ha1, h⟩ := bind_ok_elim _ _ _ h
  rw [hIS] at ha1
  injection ha1 with ha1
  subst ha1
  obtain ⟨a2, ha2, h⟩ := bind_ok_elim _ _ _ h
  rw [hFS] at ha2
  injection ha2 with ha2
  subst ha2
  split at h
  · simp only [pure_eq_ok, ok_bind, Except.ok.injEq, Prod.mk.injEq] at h
    obtain ⟨h1, h2⟩ := h
    subst h1; subst h2
    ring
  · split at h
    · obtain ⟨t, _, h⟩ := bind_ok_elim _ _ _ h
      simp only [pure_eq_ok, Except.ok.injEq, Prod.mk.injEq] at h
      obtain ⟨h1, h2⟩ := h
      subst h1; subst h2
      ring
    · simp only [pure_eq_ok, ok_bind, Except.ok.injEq, Prod.mk.injEq] at h
      obtain ⟨h1, h2⟩ := h
      subst h1; subst h2
      ring

/-- Claim C2 (corrected): the rate-constant pair of every elementary
reaction satisfies `kf / kr = exp((G_IS - G_FS)/(kB*T))`, that is
`exp(-(G_FS - G_IS)/(kB*T))` — the spec states the identity with the
opposite sign in the exponent. -/
theorem detailed_balance_corrected (kB h T : ℝ) (E : EnergyDict) (rxn : Rxn)
    (gIS gFS kf kr : ℝ)
    (hIS : stateEnergy E (rxn.headD []) = .ok gIS)
    (hFS : stateEnergy E (rxn.getLastD []) = .ok gFS)
    (hk : reaction_rate_constants kB h T E rxn = .ok (kf, kr))
    (hpre : kB * T / h ≠ 0) :
    kf / kr = Real.exp ((gIS - gFS) / (kB * T)) := by
  unfold reaction_rate_constants at hk
  obtain ⟨p, hp, hk⟩ := bind_ok_elim _ _ _ hk
  obtain ⟨dGf, dGr⟩ := p
  have hdiff : dGf - dGr = gFS - gIS :=
    get_reaction_energies_barrier_diff E rxn gIS gFS dGf dGr hIS hFS hp
  simp only [pure_eq_ok, Except.ok.injEq, Prod.mk.injEq] at hk
  obtain ⟨hkf, hkr⟩ := hk
  subst hkf; subst hkr
  rw [mul_div_mul_left _ _ hpre, ← Real.exp_sub]
  congr 1
  have hexp : -dGf / (kB * T) - -dGr / (kB * T) = (dGr - dGf) / (kB * T) := by
    ring
  rw [hexp]
  congr 1
  linarith [hdiff]

/-- Witness for claim C2 (corrected) at the reaction `wRxn` with
`kB = h = T = 1`: both barriers are 1, so `kf = kr = exp(-1)` and
`kf/kr = exp((0 - 0)/(1*1))`. -/
theorem detailed_balance_corrected_witness :
    (stateEnergy wE (wRxn.headD []) = .ok 0 ∧
     stateEnergy wE (wRxn.getLastD []) = .ok 0 ∧
     reaction_rate_constants 1 1 1 wE wRxn = .ok (Real.exp (-1), Real.exp (-1)) ∧
     (1 : ℝ) * 1 / 1 ≠ 0) ∧
    Real.exp (-1) / Real.exp (-1) = Real.exp ((0 - 0) / (1 * 1)) := by
  have hIS : stateEnergy wE (wRxn.headD []) = .ok 0 := by
    simp [stateEnergy, stateEnergyAux, dictGet, wE, wRxn, wIS]
  have hFS : stateEnergy wE (wRxn.getLastD []) = .ok 0 := by
    simp [stateEnergy, stateEnergyAux, dictGet, wE, wRxn, wIS, wTS, wFS]
  have hk : reaction_rate_constants 1 1 1 wE wRxn =
      .ok (Real.exp (-1), Real.exp (-1)) := by
    simp [reaction_rate_constants, get_reaction_energies, stateEnergy,
      stateEnergyAux, dictGet, wE, wRxn, wIS, wTS, wFS]
  have hpre : (1 : ℝ) * 1 / 1 ≠ 0 := by simp
  exact ⟨⟨hIS, hFS, hk, hpre⟩,
    detailed_balance_corrected 1 1 1 wE wRxn 0 0 (Real.exp (-1)) (Real.exp (-1))
      hIS hFS hk hpre⟩

/-- Energy dict with `A_s` at 0 and `B_s` at 1: a 2-state reaction with
a nonzero reaction energy. -/
def wE2 : EnergyDict := fun k =>
  if k = "A_s" then some 0 else if k = "B_s" then some 1 else none

/-- Counterexample to claim C2 as stated: for the reaction
`A_s -> B_s` with `G(A_s) = 0`, `G(B_s) = 1` and `kB = h = T = 1`, the
code computes `kf = exp(-1)` and `kr = 1`, so `kf/kr = exp(-1)`, which
differs from the claimed `exp((G_FS - G_IS)/(kB*T)) = exp(1)`. -/
theorem detailed_balance_counterexample :
    stateEnergy wE2 [(1, "A_s")] = .ok 0 ∧
    stateEnergy wE2 [(1, "B_s")] = .ok 1 ∧
    reaction_rate_constants 1 1 1 wE2 [[(1, "A_s")], [(1, "B_s")]] =
      .ok (Real.exp (-1), 1) ∧
    Real.exp (-1) / 1 ≠ Real.exp (((1 : ℝ) - 0) / (1 * 1)) := by
  refine ⟨by simp [stateEnergy, stateEnergyAux, dictGet, wE2],
    by simp [stateEnergy, stateEnergyAux, dictGet, wE2], ?_, ?_⟩
  · simp [reaction_rate_constants, get_reaction_energies, stateEnergy,
      stateEnergyAux, dictGet, wE2]
  · rw [div_one]
    have h1 : ((1 : ℝ) - 0) / (1 * 1) = 1 := by norm_num
    rw [h1, ne_eq, Real.exp_eq_exp]
    norm_num

/-- Claim C6: for a 2-state elementary reaction the computed transition
energy is `max(G_IS, G_FS)` (numeric path of `get_reaction_energies`),
and the transition state selected by the tie-break of
`get_single_delta_G_symbols` has energy `max(G_IS, G_FS)` with a tie
(`G_IS = G_FS`) resolved to the final state (`TS_idx = -1`). -/
theorem two_state_transition_energy (E : EnergyDict) (IS FS : RxnState)
    (gIS gFS : ℝ)
    (hIS : stateEnergy E IS = .ok gIS)
    (hFS : stateEnergy E FS = .ok gFS) :
    get_reaction_energies E [IS, FS] = .ok (max gIS gFS - gIS, max gIS gFS - gFS) ∧
    stateEnergy E (TS_state [IS, FS] gIS gFS) = .ok (max gIS gFS) ∧
    (gIS = gFS → TS_idx gIS gFS = -1 ∧ TS_state [IS, FS] gIS gFS = FS) := by
  refine ⟨by simp [get_reaction_energies, hIS, hFS], ?_, ?_⟩
  · by_cases hle : gIS ≤ gFS
    · rw [TS_state, if_pos hle, max_eq_right hle]
      simpa using hFS
    · rw [TS_state, if_neg hle, max_eq_left (le_of_not_le hle)]
      simpa using hIS
  · intro heq
    have hle : gIS ≤ gFS := le_of_eq heq
    exact ⟨by rw [TS_idx, if_pos hle], by simp [TS_state, if_pos hle]⟩

/-- Energy dict realising a tie: `A_s` and `B_s` both at 0. -/
def wE3 : EnergyDict := fun k =>
  if k = "A_s" then some 0 else if k = "B_s" then some 0 else none

/-- Witness for claim C6 at the tied reaction `A_s -> B_s` with both
energies 0: the transition energy is `max 0 0` and the tie picks the
final state. -/
theorem two_state_transition_energy_witness :
    (stateEnergy wE3 [(1, "A_s")] = .ok 0 ∧
     stateEnergy wE3 [(1, "B_s")] = .ok 0) ∧
    (get_reaction_energies wE3 [[(1, "A_s")], [(1, "B_s")]] =
       .ok (max 0 0 - 0, max 0 0 - 0) ∧
     stateEnergy wE3 (TS_state [[(1, "A_s")], [(1, "B_s")]] 0 0) = .ok (max 0 0) ∧
     ((0 : ℝ) = 0 → TS_idx 0 0 = -1 ∧
       TS_state [[(1, "A_s")], [(1, "B_s")]] 0 0 = [(1, "B_s")])) := by
  have hIS : stateEnergy wE3 [(1, "A_s")] = .ok 0 := by
    simp [stateEnergy, stateEnergyAux, dictGet, wE3]
  have hFS : stateEnergy wE3 [(1, "B_s")] = .ok 0 := by
    simp [stateEnergy, stateEnergyAux, dictGet, wE3]
  exact ⟨⟨hIS, hFS⟩,
    two_state_transition_energy wE3 [(1, "A_s")] [(1, "B_s")] 0 0 hIS hFS⟩

/-- Any failure of the state-energy loop is a `KeyError` for a species
missing from the energy dict. -/
theorem stateEnergyAux_error_shape (E : EnergyDict) :
    ∀ (st : RxnState) (acc : ℝ) (e : PyErr),
      stateEnergyAux E acc st = .error e → ∃ k, e = .keyError k ∧ E k = none := by
  intro st
  induction st with
  | nil => intro acc e he; simp [stateEnergyAux] at he
  | cons t rest ih =>
    intro acc e he
    unfold stateEnergyAux at he
    cases hk : E t.2 with
    | none =>
      rw [dictGet, hk] at he
      simp only [error_bind, Except.error.injEq] at he
      exact ⟨t.2, he.symm, hk⟩
    | some v =>
      rw [dictGet, hk] at he
      simp only [ok_bind] at he
      exact ih _ _ he

/-- If some species of the state is missing from the energy dict, the
state-energy loop fails. -/
theorem stateEnergyAux_fails_of_missing (E : EnergyDict) :
    ∀ (st : RxnState) (acc : ℝ), (∃ t ∈ st, E t.2 = none) →
      ∃ e, stateEnergyAux E acc st = .error e := by
  intro st
  induction st with
  | nil => intro acc hm; simp at hm
  | cons t rest ih =>
    intro acc hm
    cases hk : E t.2 with
    | none =>
      exact ⟨.keyError t.2, by simp [stateEnergyAux, dictGet, hk]⟩
    | some v =>
      obtain ⟨t', ht', hn⟩ := hm
      rcases List.mem_cons.mp ht' with h1 | h1
      · subst h1; rw [hk] at hn; cases hn
      · obtain ⟨e, he⟩ := ih (acc + (t.1 : ℝ) * v) ⟨t', h1, hn⟩
        exact ⟨e, by simp [stateEnergyAux, dictGet, hk, he]⟩

/-- Claim C7 (corrected): if any species referenced by a 2- or 3-state
reaction has no entry in the free-energy dict, computing its reaction
energies / rate constants fails — with the `KeyError` of the failed dict
lookup, not a dedicated `MissingEnergyError`. -/
theorem missing_energy_failure (kB h T : ℝ) (E : EnergyDict) (rxn : Rxn)
    (hlen : rxn.length = 2 ∨ rxn.length = 3)
    (hmiss : ∃ st ∈ rxn, ∃ t ∈ st, E t.2 = none) :
    ∃ k, E k = none ∧
      get_reaction_energies E rxn = .error (.keyError k) ∧
      reaction_rate_constants kB h T E rxn = .error (.keyError k) := by
  match rxn, hlen with
  | [a, b], _ =>
    cases hA : stateEnergy E a with
    | error e =>
      obtain ⟨k, hek, hkn⟩ := stateEnergyAux_error_shape E a 0 e hA
      subst hek
      have hre : get_reaction_energies E [a, b] = .error (.keyError k) := by
        simp [get_reaction_energies, hA]
      exact ⟨k, hkn, hre, by simp [reaction_rate_constants, hre]⟩
    | ok g =>
      cases hB : stateEnergy E b with
      | error e =>
        obtain ⟨k, hek, hkn⟩ := stateEnergyAux_error_shape E b 0 e hB
        subst hek
        have hre : get_reaction_energies E [a, b] = .error (.keyError k) := by
          simp [get_reaction_energies, hA, hB]
        exact ⟨k, hkn, hre, by simp [reaction_rate_constants, hre]⟩
      | ok g2 =>
        exfalso
        obtain ⟨st, hst, hm⟩ := hmiss
        rcases List.mem_cons.mp hst with h1 | h1
        · subst h1
          obtain ⟨e, he⟩ := stateEnergyAux_fails_of_missing E st 0 hm
          rw [stateEnergy, he] at hA
          cases hA
        · rcases List.mem_cons.mp h1 with h2 | h2
          · subst h2
            obtain ⟨e, he⟩ := stateEnergyAux_fails_of_missing E st 0 hm
            rw [stateEnergy, he] at hB
            cases hB
          · simp at h2
  | [a, b, c], _ =>
    cases hA : stateEnergy E a with
    | error e =>
      obtain ⟨k, hek, hkn⟩ := stateEnergyAux_error_shape E a 0 e hA
      subst hek
      have hre : get_reaction_energies E [a, b, c] = .error (.keyError k) := by
        simp [get_reaction_energies, hA]
      exact ⟨k, hkn, hre, by simp [reaction_rate_constants, hre]⟩
    | ok g =>
      cases hC : stateEnergy E c with
      | error e =>
        obtain ⟨k, hek, hkn⟩ := stateEnergyAux_error_shape E c 0 e hC
        subst hek
        have hre : get_reaction_energies E [a, b, c] = .error (.keyError k) := by
          simp [get_reaction_energies, hA, hC]
        exact ⟨k, hkn, hre, by simp [reaction_rate_constants, hre]⟩
      | ok g2 =>
        cases hB : stateEnergy E b with
        | error e =>
          obtain ⟨k, hek, hkn⟩ := stateEnergyAux_error_shape E b 0 e hB
          subst hek
          have hre : get_reaction_energies E [a, b, c] = .error (.keyError k) := by
            simp [get_reaction_energies, hA, hB, hC]
          exact ⟨k, hkn, hre, by simp [reaction_rate_constants, hre]⟩
        | ok g3 =>
          exfalso
          obtain ⟨st, hst, hm⟩ := hmiss
          obtain ⟨e, he⟩ := stateEnergyAux_fails_of_missing E st 0 hm
          rcases List.mem_cons.mp hst with h1 | h1
          · subst h1; rw [stateEnergy, he] at hA; cases hA
          · rcases List.mem_cons.mp h1 with h2 | h2
            · subst h2; rw [stateEnergy, he] at hB; cases hB
            · rcases List.mem_cons.mp h2 with h3 | h3
              · subst h3; rw [stateEnergy, he] at hC; cases hC
              · simp at h3

/-- Energy dict knowing only `A_s`: the product `B_s` is missing. -/
def wEmiss : EnergyDict := fun k => if k = "A_s" then some 0 else none

/-- Counterexample to claim C7 as stated: for `A_s -> B_s` with `B_s`
absent from the energy dict, the computation fails with the dict
`KeyError` for `B_s` — no `MissingEnergyError` is produced (the source
defines no such class). -/
theorem missing_energy_counterexample :
    get_reaction_energies wEmiss [[(1, "A_s")], [(1, "B_s")]] =
      .error (.keyError "B_s") ∧
    reaction_rate_constants 1 1 1 wEmiss [[(1, "A_s")], [(1, "B_s")]] =
      .error (.keyError "B_s") ∧
    PyErr.keyError "B_s" ≠ PyErr.missingEnergyError "B_s" := by
  have hre : get_reaction_energies wEmiss [[(1, "A_s")], [(1, "B_s")]] =
      .error (.keyError "B_s") := by
    simp [get_reaction_energies, stateEnergy, stateEnergyAux, dictGet, wEmiss]
  exact ⟨hre, by simp [reaction_rate_constants, hre], by simp⟩

/-- Witness for claim C7 (corrected) at the reaction `A_s -> B_s` with
`B_s` missing from `wEmiss`. -/
theorem missing_energy_failure_witness :
    (([[(1, "A_s")], [(1, "B_s")]] : Rxn).length = 2 ∨
       ([[(1, "A_s")], [(1, "B_s")]] : Rxn).length = 3) ∧
    (∃ st ∈ ([[(1, "A_s")], [(1, "B_s")]] : Rxn), ∃ t ∈ st, wEmiss t.2 = none) ∧
    (∃ k, wEmiss k = none ∧
      get_reaction_energies wEmiss [[(1, "A_s")], [(1, "B_s")]] =
        .error (.keyError k) ∧
      reaction_rate_constants 1 1 1 wEmiss [[(1, "A_s")], [(1, "B_s")]] =
        .error (.keyError k)) := by
  have hlen : ([[(1, "A_s")], [(1, "B_s")]] : Rxn).length = 2 ∨
      ([[(1, "A_s")], [(1, "B_s")]] : Rxn).length = 3 := Or.inl rfl
  have hmiss : ∃ st ∈ ([[(1, "A_s")], [(1, "B_s")]] : Rxn),
      ∃ t ∈ st, wEmiss t.2 = none :=
    ⟨[(1, "B_s")], by simp, (1, "B_s"), by simp, by simp [wEmiss]⟩
  exact ⟨hlen, hmiss,
    missing_energy_failure 1 1 1 wEmiss [[(1, "A_s")], [(1, "B_s")]] hlen hmiss⟩

/-- A successful `lookupAll` returns one energy per requested name. -/
theorem lookupAll_ok_length (E : EnergyDict) :
    ∀ (names : List String) (es : List ℝ),
      lookupAll E names = .ok es → es.length = names.length := by
  intro names
  induction names with
  | nil =>
    intro es h
    simp only [lookupAll, Except.ok.injEq] at h
    subst h; rfl
  | cons a rest ih =>
    intro es h
    unfold lookupAll at h
    obtain ⟨e, he, h⟩ := bind_ok_elim _ _ _ h
    obtain ⟨es', hes, h⟩ := bind_ok_elim _ _ _ h
    simp only [pure_eq_ok, Except.ok.injEq] at h
    subst h
    simp [ih es' hes]

/-- Sum of a list divided pointwise. -/
theorem sum_map_div (l : List ℝ) (c : ℝ) :
    (l.map fun x => x / c).sum = l.sum / c := by
  induction l with
  | nil => simp
  | cons a t ih => simp [ih, add_div]

/-- Claim C10: for every energy mapping covering the adsorbates,
`boltzmann_coverages` returns one value per adsorbate (in
`adsorbate_names` order), each strictly positive, and the values sum to
exactly 1 — the normalisation runs over all adsorbates together. -/
theorem boltzmann_coverages_normalized (kB T : ℝ) (E : EnergyDict)
    (names : List String) (cvgs : List ℝ)
    (hne : names ≠ [])
    (hok : boltzmann_coverages kB T E names = .ok cvgs) :
    cvgs.length = names.length ∧ (∀ c ∈ cvgs, 0 < c) ∧ cvgs.sum = 1 := by
  unfold boltzmann_coverages at hok
  obtain ⟨es, hes, hok⟩ := bind_ok_elim _ _ _ hok
  simp only [pure_eq_ok, Except.ok.injEq] at hok
  subst hok
  have hlen := lookupAll_ok_length E names es hes
  have hesne : es ≠ [] := by
    intro hnil
    subst hnil
    exact hne (List.length_eq_zero.mp hlen.symm)
  have hpos : 0 < (es.map fun e => Real.exp (-e / (kB * T))).sum := by
    refine List.sum_pos _ (fun x hx => ?_) (by simpa using hesne)
    obtain ⟨e, _, rfl⟩ := List.mem_map.mp hx
    exact Real.exp_pos _
  refine ⟨by simp [hlen], fun c hc => ?_, ?_⟩
  · obtain ⟨e, _, rfl⟩ := List.mem_map.mp hc
    exact div_pos (Real.exp_pos _) hpos
  · have hcomp : (es.map fun e =>
        Real.exp (-e / (kB * T)) / (es.map fun x => Real.exp (-x / (kB * T))).sum) =
        ((es.map fun e => Real.exp (-e / (kB * T))).map fun x =>
          x / (es.map fun x => Real.exp (-x / (kB * T))).sum) := by
      simp [List.map_map, Function.comp]
    rw [hcomp, sum_map_div, div_self (ne_of_gt hpos)]

/-- Witness for claim C10 with the single adsorbate `A_s` at energy 0
and `kB = T = 1`: the coverage list is `[1]`. -/
theorem boltzmann_coverages_normalized_witness :
    ((["A_s"] : List String) ≠ [] ∧
     boltzmann_coverages 1 1 wE ["A_s"] = .ok [1]) ∧
    (([1] : List ℝ).length = (["A_s"] : List String).length ∧
     (∀ c ∈ ([1] : List ℝ), 0 < c) ∧ ([1] : List ℝ).sum = 1) := by
  have hne : (["A_s"] : List String) ≠ [] := by simp
  have hok : boltzmann_coverages 1 1 wE ["A_s"] = .ok [1] := by
    simp [boltzmann_coverages, lookupAll, dictGet, wE]
  exact ⟨⟨hne, hok⟩,
    boltzmann_coverages_normalized 1 1 wE ["A_s"] [1] hne hok⟩

/-- A key not assigned by the update list keeps its old entry. -/
theorem applyUpdates_not_mem (ps : List (String × ℝ)) :
    ∀ (E : EnergyDict) (k : String), k ∉ ps.map Prod.fst →
      applyUpdates E ps k = E k := by
  induction ps with
  | nil => intro E k _; rfl
  | cons p rest ih =>
    intro E k hk
    simp only [List.map_cons, List.mem_cons, not_or] at hk
    have hstep : applyUpdates E (p :: rest) = applyUpdates (dictSet E p.1 p.2) rest :=
      rfl
    rw [hstep, ih _ k hk.2]
    simp [dictSet, hk.1]

/-- With pairwise distinct keys, each assigned key ends up at its
assigned value. -/
theorem applyUpdates_mem (ps : List (String × ℝ)) :
    ∀ (E : EnergyDict) (k : String) (v : ℝ), (ps.map Prod.fst).Nodup →
      (k, v) ∈ ps → applyUpdates E ps k = some v := by
  induction ps with
  | nil => intro E k v _ hmem; simp at hmem
  | cons p rest ih =>
    intro E k v hnd hmem
    have hstep : applyUpdates E (p :: rest) = applyUpdates (dictSet E p.1 p.2) rest :=
      rfl
    simp only [List.map_cons, List.nodup_cons] at hnd
    rcases List.mem_cons.mp hmem with h1 | h1
    · subst h1
      rw [hstep, applyUpdates_not_mem rest _ k hnd.1]
      simp [dictSet]
    · exact hstep ▸ ih _ k v hnd.2 h1

/-- Claim C9: calling the TOF engine with a free-energy vector
overwrites, in place and without restoration, the entries of the shared
energy dict for every species of `adsorbate_names ++
transition_state_names` (in that order) with the supplied values, and
modifies no other entry. -/
theorem tof_energy_overwrite (adsNames tsNames : List String) (Gs : List ℝ)
    (E : EnergyDict)
    (hnd : (adsNames ++ tsNames).Nodup)
    (hlen : (adsNames ++ tsNames).length = Gs.length) :
    (∀ i (hi : i < (adsNames ++ tsNames).length),
      get_tof_E_effect adsNames tsNames Gs E ((adsNames ++ tsNames).get ⟨i, hi⟩) =
        some (Gs.get ⟨i, hlen ▸ hi⟩)) ∧
    (∀ k, k ∉ adsNames ++ tsNames →
      get_tof_E_effect adsNames tsNames Gs E k = E k) := by
  have hfst : ((adsNames ++ tsNames).zip Gs).map Prod.fst = adsNames ++ tsNames :=
    List.map_fst_zip _ _ (le_of_eq hlen)
  constructor
  · intro i hi
    have hz : i < ((adsNames ++ tsNames).zip Gs).length := by
      simp only [List.length_zip]
      omega
    have hget : ((adsNames ++ tsNames).zip Gs).get ⟨i, hz⟩ =
        ((adsNames ++ tsNames).get ⟨i, hi⟩, Gs.get ⟨i, hlen ▸ hi⟩) := by
      simp [List.getElem_zip]
    have hmem : ((adsNames ++ tsNames).get ⟨i, hi⟩, Gs.get ⟨i, hlen ▸ hi⟩) ∈
        (adsNames ++ tsNames).zip Gs := hget ▸ List.get_mem _ _ _
    exact applyUpdates_mem _ _ _ _ (by rw [hfst]; exact hnd) hmem
  · intro k hk
    exact applyUpdates_not_mem _ _ _ (by rw [hfst]; exact hk)

/-- Witness for claim C9: adsorbate `A_s` and transition state `A-A_s`
overwritten with values 2 and 3 on top of `wE`; the untouched key `B_s`
keeps its entry. -/
theorem tof_energy_overwrite_witness :
    ((["A_s"] ++ ["A-A_s"] : List String).Nodup ∧
     (["A_s"] ++ ["A-A_s"] : List String).length = ([2, 3] : List ℝ).length) ∧
    get_tof_E_effect ["A_s"] ["A-A_s"] [2, 3] wE "A_s" = some 2 ∧
    get_tof_E_effect ["A_s"] ["A-A_s"] [2, 3] wE "A-A_s" = some 3 ∧
    get_tof_E_effect ["A_s"] ["A-A_s"] [2, 3] wE "B_s" = wE "B_s" := by
  have hnd : (["A_s"] ++ ["A-A_s"] : List String).Nodup := by simp
  have hlen : (["A_s"] ++ ["A-A_s"] : List String).length =
      ([2, 3] : List ℝ).length := rfl
  obtain ⟨hin, hout⟩ := tof_energy_overwrite ["A_s"] ["A-A_s"] [2, 3] wE hnd hlen
  exact ⟨⟨hnd, hlen⟩, hin 0 (by simp), hin 1 (by simp), hout "B_s" (by simp)⟩

/-- Claim C4: during each of the first 5 iterations the constraint
applied to the stepped point is the identity (`quasi_constraint`), from
iteration 6 onward it is the real constraint supplied by the caller, and
the initial guess is passed through the identity `quasi_constraint` as
well. -/
theorem newton_warmup_constraint (nr : NewtonRoot) (i : ℕ) (x x0 : List ℚ) :
    (1 ≤ i → i ≤ 5 → constraintAt nr i x = x) ∧
    (6 ≤ i → constraintAt nr i x = nr.realConstraint x) ∧
    quasi_constraint x0 = x0 ∧
    newtonStateAt nr x0 0 = .running (quasi_constraint x0) := by
  refine ⟨?_, ?_, rfl, rfl⟩
  · intro _ h5
    rw [constraintAt, if_pos h5]
    rfl
  · intro h6
    rw [constraintAt, if_neg (by omega)]

/-- A concrete instance of the Newton solver for witnesses: a 1-d
residual `f(x) = x`, exact Jacobian, exact 1x1 linear solve, unit step
length, 1-norm, projection to nonnegatives as real constraint. -/
def wNR : NewtonRoot where
  f := fun v => v
  J := fun _ => [[1]]
  axbSolver := fun _ b => some b
  golden := fun _ => 1
  norm := fun v => (v.map (fun a => |a|)).sum
  realConstraint := fun v => v.map (fun a => max a 0)

/-- Witness for claim C4 at iterations 3 and 6 of `wNR`. -/
theorem newton_warmup_constraint_witness :
    ((1 : ℕ) ≤ 3 ∧ (3 : ℕ) ≤ 5 ∧ constraintAt wNR 3 [-7] = [-7]) ∧
    ((6 : ℕ) ≤ 6 ∧ constraintAt wNR 6 [-7] = wNR.realConstraint [-7]) ∧
    quasi_constraint ([2] : List ℚ) = [2] ∧
    newtonStateAt wNR [2] 0 = .running (quasi_constraint [2]) := by
  obtain ⟨h1, _, h3, h4⟩ := newton_warmup_constraint wNR 3 [-7] [2]
  obtain ⟨_, h2, _, _⟩ := newton_warmup_constraint wNR 6 [-7] [2]
  exact ⟨⟨by decide, by decide, h1 (by decide) (by decide)⟩,
    ⟨by decide, h2 (by decide)⟩, h3, h4⟩

/-- Claim C3: whenever the loop body runs from a point and the linear
solve succeeds, the iteration yields the triple `(point, residual_norm,
residual_vector)` for the newly constrained point, continues exactly
when that point differs from the previous one (no residual-tolerance
test, no internal iteration cap), and on stationarity the stationary
point is still yielded as the last element of the sequence. -/
theorem newton_termination (nr : NewtonRoot) (x0 : List ℚ) (n : ℕ)
    (x x1 : List ℚ) (r : ℚ) (v : List ℚ) (b : Bool)
    (hrun : newtonStateAt nr x0 n = .running x)
    (hstep : newtonStep nr (n + 1) x = some (x1, r, v, b)) :
    newtonYield nr x0 n = some (x1, nr.norm (nr.f x1), nr.f x1) ∧
    (newtonStateAt nr x0 (n + 1) = .running x1 ↔ x1 ≠ x) ∧
    (x1 = x → newtonStateAt nr x0 (n + 1) = .stationary x1 ∧
      newtonYield nr x0 (n + 1) = none) := by
  have hshape : r = nr.norm (nr.f x1) ∧ v = nr.f x1 := by
    simp only [newtonStep] at hstep
    cases haxb : nr.axbSolver (nr.J x) (vneg (nr.f x)) with
    | none => rw [haxb] at hstep; simp at hstep
    | some s =>
      rw [haxb] at hstep
      simp only [Option.some.injEq, Prod.mk.injEq] at hstep
      obtain ⟨h1, h2, h3, _⟩ := hstep
      subst h1
      exact ⟨h2.symm, h3.symm⟩
  obtain ⟨hr, hv⟩ := hshape
  have hnext : newtonStateAt nr x0 (n + 1) =
      if x1 = x then .stationary x1 else .running x1 := by
    simp [newtonStateAt, hrun, hstep]
  refine ⟨?_, ?_, ?_⟩
  · simp [newtonYield, hrun, hstep, hr, hv]
  · by_cases hxx : x1 = x <;> simp [hnext, hxx]
  · intro hxx
    have hstat : newtonStateAt nr x0 (n + 1) = .stationary x1 := by
      rw [hnext, if_pos hxx]
    exact ⟨hstat, by simp [newtonYield, hstat]⟩

/-- Witness for claim C3 on `wNR` from `x0 = [1]`: iteration 2 reaches
the stationary point `[0]`, which is yielded and ends the sequence. -/
theorem newton_termination_witness :
    (newtonStateAt wNR [1] 1 = .running [0] ∧
     newtonStep wNR 2 [0] = some ([0], 0, [0], true)) ∧
    (newtonYield wNR [1] 1 = some ([0], wNR.norm (wNR.f [0]), wNR.f [0]) ∧
     (newtonStateAt wNR [1] 2 = .running [0] ↔ ([0] : List ℚ) ≠ [0]) ∧
     (([0] : List ℚ) = [0] → newtonStateAt wNR [1] 2 = .stationary [0] ∧
       newtonYield wNR [1] 2 = none)) := by
  have h1 : newtonStateAt wNR [1] 1 = .running [0] := by
    simp [newtonStateAt, newtonStep, wNR, vadd, vsmul, vneg, constraintAt,
      quasi_constraint]
  have h2 : newtonStep wNR 2 [0] = some ([0], 0, [0], true) := by
    simp [newtonStep, wNR, vadd, vsmul, vneg, constraintAt, quasi_constraint]
  exact ⟨⟨h1, h2⟩, newton_termination wNR [1] 1 [0] [0] 0 [0] true h1 h2⟩

/-- Once the generator has been cancelled by the singular-solve handler
it stays cancelled. -/
theorem newtonStateAt_aborted_absorbing (nr : NewtonRoot) (x0 : List ℚ)
    (n : ℕ) (h : newtonStateAt nr x0 n = .aborted) :
    ∀ m, n ≤ m → newtonStateAt nr x0 m = .aborted := by
  intro m
  induction m with
  | zero =>
    intro hm
    have : n = 0 := Nat.le_zero.mp hm
    exact this ▸ h
  | succ m' ih =>
    intro hm
    rcases Nat.lt_or_ge n (m' + 1) with h1 | h1
    · have habort := ih (Nat.lt_succ_iff.mp h1)
      simp [newtonStateAt, habort]
    · have : n = m' + 1 := Nat.le_antisymm hm h1
      exact this ▸ h

/-- Claim C5 (corrected): if the linear solve inside a Newton iteration
is singular (raises the `ZeroDivisionError` the handler catches), the
iteration is aborted — nothing further is yielded and the generator
terminates normally (`StopIteration` after a printed message); no
`SingularJacobianError` (or any exception) is reported to the caller,
and nothing is retried. -/
theorem singular_solve_aborts (nr : NewtonRoot) (x0 : List ℚ) (n : ℕ)
    (x : List ℚ)
    (hrun : newtonStateAt nr x0 n = .running x)
    (hsing : newtonStep nr (n + 1) x = none) :
    newtonStateAt nr x0 (n + 1) = .aborted ∧
    (∀ m, n ≤ m → newtonYield nr x0 m = none) ∧
    newtonExitAt nr x0 (n + 1) = some .stopIteration ∧
    GenExit.stopIteration ≠ .raised "SingularJacobianError" := by
  have habort : newtonStateAt nr x0 (n + 1) = .aborted := by
    simp [newtonStateAt, hrun, hsing]
  refine ⟨habort, ?_, by simp [newtonExitAt, habort], by simp⟩
  intro m hm
  rcases Nat.eq_or_lt_of_le hm with h1 | h1
  · rw [← h1]
    simp [newtonYield, hrun, hsing]
  · have := newtonStateAt_aborted_absorbing nr x0 (n + 1) habort m h1
    simp [newtonYield, this]

/-- The `wNR` solver with a linear solve that is always singular. -/
def wNRsing : NewtonRoot := { wNR with axbSolver := fun _ _ => none }

/-- Counterexample to claim C5 as stated: on a singular linear solve the
generator of `NewtonRoot.__iter__` ends by normal `StopIteration` — the
`except ZeroDivisionError` handler prints and breaks — so no
`SingularJacobianError` is reported to the caller (the source defines no
such class). -/
theorem singular_solve_counterexample :
    newtonStep wNRsing 1 [1] = none ∧
    newtonStateAt wNRsing [1] 1 = .aborted ∧
    newtonYield wNRsing [1] 0 = none ∧
    newtonExitAt wNRsing [1] 1 = some .stopIteration ∧
    GenExit.stopIteration ≠ .raised "SingularJacobianError" := by
  decide

/-- Witness for claim C5 (corrected) on `wNRsing` at its first
iteration. -/
theorem singular_solve_aborts_witness :
    (newtonStateAt wNRsing [1] 0 = .running [1] ∧
     newtonStep wNRsing 1 [1] = none) ∧
    (newtonStateAt wNRsing [1] 1 = .aborted ∧
     (∀ m, 0 ≤ m → newtonYield wNRsing [1] m = none) ∧
     newtonExitAt wNRsing [1] 1 = some .stopIteration ∧
     GenExit.stopIteration ≠ .raised "SingularJacobianError") := by
  have h1 : newtonStateAt wNRsing [1] 0 = .running [1] := by decide
  have h2 : newtonStep wNRsing 1 [1] = none := by decide
  exact ⟨⟨h1, h2⟩, singular_solve_aborts wNRsing [1] 0 [1] h1 h2⟩

/-- Claim C8: the classified Jacobian perturbs coordinate `j` forward
(`x_j + delta`) when `j` is below the adsorbate count and backward
(`x_j - delta`) otherwise, with step `delta = max(|h*x_j|, h)`, dividing
the difference by `delta` resp. `-delta`. -/
theorem classified_jacobian_steps (f : List ℚ → List ℚ) (x : List ℚ)
    (interNum : ℕ) (h : ℚ) (j : ℕ) (hj : j < x.length) :
    (j < interNum →
      (classified_numerical_jacobian f x interNum h).getD j [] =
        List.zipWith (fun a b => (a - b) / max |h * x.getD j 0| h)
          (f (x.set j (x.getD j 0 + max |h * x.getD j 0| h))) (f x)) ∧
    (interNum ≤ j →
      (classified_numerical_jacobian f x interNum h).getD j [] =
        List.zipWith (fun a b => (a - b) / (-(max |h * x.getD j 0| h)))
          (f (x.set j (x.getD j 0 - max |h * x.getD j 0| h))) (f x)) := by
  have hcol : (classified_numerical_jacobian f x interNum h).getD j [] =
      jacColumn f x (f x) interNum h j := by
    rw [classified_numerical_jacobian,
      List.getD_eq_getElem _ _ (by simpa using hj)]
    simp
  constructor
  · intro hfwd
    rw [hcol]
    simp only [jacColumn]
    rw [if_pos (by omega)]
  · intro hbwd
    rw [hcol]
    simp only [jacColumn]
    rw [if_neg (by omega)]

/-- The identity residual used by the Jacobian witness. -/
def wf : List ℚ → List ℚ := fun v => v

/-- Witness for claim C8 on `f = id`, `x = [4, 5]`, one adsorbate
coordinate and `h = 1/10`: the forward column at `j = 0` is `[1, 0]`
(step `+2/5`), the backward column at `j = 1` is `[0, 1]`
(step `-1/2`). -/
theorem classified_jacobian_steps_witness :
    ((0 : ℕ) < ([4, 5] : List ℚ).length ∧ (0 : ℕ) < 1 ∧
     (1 : ℕ) < ([4, 5] : List ℚ).length ∧ (1 : ℕ) ≤ 1) ∧
    (classified_numerical_jacobian wf [4, 5] 1 (1 / 10)).getD 0 [] = [1, 0] ∧
    (classified_numerical_jacobian wf [4, 5] 1 (1 / 10)).getD 1 [] = [0, 1] := by
  refine ⟨⟨by decide, by decide, by decide, by decide⟩, ?_, ?_⟩
  · have h0 := (classified_jacobian_steps wf [4, 5] 1 (1 / 10) 0 (by decide)).1
      (by decide)
    rw [h0]
    norm_num [wf]
    rw [div_self (ne_of_gt (lt_of_lt_of_le (by norm_num) (le_max_right _ _)))]
  · have h1 := (classified_jacobian_steps wf [4, 5] 1 (1 / 10) 1 (by decide)).2
      (by decide)
    rw [h1]
    norm_num [wf]
    rw [div_self (ne_of_gt (lt_of_lt_of_le (by norm_num) (le_max_right _ _)))]

end Pynetics
